import Mathlib

/-! Verification of the Advanced Data Sweeper pipeline (src/main.py)

A shallow embedding of the tabular transformation-and-conversion pipeline:
tables are row-major lists of cells over typed columns, mirroring a pandas
DataFrame (per-column dtype metadata plus row data).  The four cleaning
operations, column projection, the visualization branch, CSV/xlsx
serialization and the download-name computation are translated from
`src/main.py`; pandas/Python library calls (`drop_duplicates`, `fillna`,
`mean`, `str.lower`, `str.replace`, `os.path.splitext`, `str.replace` of
Python, `to_csv`/`read_csv`) are modelled by their documented semantics.
-/

namespace DataSweeper

/-- A cell of a DataFrame: missing (NaN), a number, or a piece of text.
Numbers are modelled as rationals: pandas floats serialize/deserialize
exactly (`repr` of a double is faithful), and the mean used by the fill
operation is a quotient, so `ℚ` captures the exact-arithmetic content. -/
inductive Value where
  | missing : Value
  | num : ℚ → Value
  | text : String → Value
  deriving DecidableEq, Repr

/-- Column dtype as pandas tracks it: `numeric` for int/float columns
(what `select_dtypes(include=["number"])` keeps), `object` otherwise. -/
inductive Dtype where
  | numeric : Dtype
  | object : Dtype
  deriving DecidableEq, Repr

/-- Column metadata: a name and a dtype. -/
structure Col where
  name : String
  dtype : Dtype
  deriving DecidableEq, Repr

/-- Default column used with `List.getD`. -/
def cdef : Col := ⟨"", Dtype.object⟩

/-- A row is the list of cells, positionally aligned with the column list. -/
abbrev Row := List Value

/-- A DataFrame: ordered typed columns plus row-major data
(`main.py` line 94/96, the `df` value). -/
structure Table where
  cols : List Col
  rows : List Row
  deriving DecidableEq, Repr

/-! Remove Duplicates (`main.py` line 123, `df.drop_duplicates()`)

pandas drops every row equal to an earlier row (NaN compares equal to NaN
for this purpose, which `Value.missing = Value.missing` mirrors), keeping
the first occurrence and the order of kept rows. -/

/-- Core scan of `drop_duplicates`: keep a row iff it has not been seen. -/
def dedupRows (seen : List Row) : List Row → List Row
  | [] => []
  | r :: rs => if r ∈ seen then dedupRows seen rs else r :: dedupRows (r :: seen) rs

/-- Model of `df.drop_duplicates()` (`main.py` line 123). -/
def dropDuplicates (t : Table) : Table :=
  { t with rows := dedupRows [] t.rows }

/-! Fill Missing Values (`main.py` lines 126-127)

`numeric_cols = df.select_dtypes(include=["number"]).columns` and
`df[numeric_cols] = df[numeric_cols].fillna(df[numeric_cols].mean())`:
each numeric-dtype column has its missing cells replaced by the mean of
that column's non-missing values, the mean being computed on the frame
before any fill happens.  `mean()` of an all-NaN column is NaN, and
filling with NaN leaves the cell NaN. -/

/-- The non-missing numeric values of column `j` (what `mean()` averages). -/
def colPresent (rows : List Row) (j : ℕ) : List ℚ :=
  rows.filterMap fun r =>
    match r.getD j Value.missing with
    | Value.num q => some q
    | _ => none

/-- Model of `df[col].mean()`: arithmetic mean of the non-missing values, `none`
(NaN) when every value is missing. -/
def colMean (rows : List Row) (j : ℕ) : Option ℚ :=
  let l := colPresent rows j
  if l = [] then none else some (l.sum / (l.length : ℚ))

/-- Model of `fillna` on one cell: a missing cell becomes the fill value when there
is one (filling with NaN is a no-op); present cells are untouched. -/
def fillValue (m : Option ℚ) : Value → Value
  | Value.missing =>
    match m with
    | some q => Value.num q
    | none => Value.missing
  | v => v

/-- Per-column fill values, aligned with the column list: the mean for
numeric-dtype columns, nothing for `object` columns (which
`select_dtypes` excludes from the fill). -/
def fillTransforms (rows : List Row) : List Col → ℕ → List (Option ℚ)
  | [], _ => []
  | c :: cs, j =>
    (if c.dtype = Dtype.numeric then colMean rows j else none)
      :: fillTransforms rows cs (j + 1)

/-- Apply the per-column fill values to one row, positionally. -/
def applyFill : List (Option ℚ) → Row → Row
  | _, [] => []
  | [], r => r
  | m :: ms, v :: vs => fillValue m v :: applyFill ms vs

/-- The Fill Missing Values branch (`main.py` lines 126-127). -/
def fillMissing (t : Table) : Table :=
  { t with rows := t.rows.map (applyFill (fillTransforms t.rows t.cols 0)) }

/-! Standardize Column Names (`main.py` line 130)

`df.columns = df.columns.str.lower().str.replace(" ", "_")` — lower-case
every name, then replace each space with an underscore.  There is no
collision check: the assignment always succeeds. -/

/-- Model of `.str.lower().str.replace(" ", "_")` on one name: lower-case each
character, then replace each space character with an underscore. -/
def normalizeName (s : String) : String :=
  String.mk ((s.data.map Char.toLower).map fun c => if c = ' ' then '_' else c)

/-- The Standardize Column Names branch (`main.py` line 130). -/
def standardizeColumns (t : Table) : Table :=
  { t with cols := t.cols.map fun c => { c with name := normalizeName c.name } }

/-! Remove Columns (`main.py` lines 133-138)

`df = df.drop(columns=columns_to_remove)`: every column whose name is in
the selection is dropped, together with its cells in each row. -/

/-- Keep the entries of `l` whose mask bit is `true` (positional). -/
def maskFilter (mask : List Bool) : List α → List α
  | [] => []
  | a :: as_ =>
    match mask with
    | [] => []
    | b :: bs => if b then a :: maskFilter bs as_ else maskFilter bs as_

/-- The Remove Columns branch (`main.py` line 138). -/
def removeColumns (t : Table) (names : List String) : Table :=
  let mask := t.cols.map fun c => decide (c.name ∉ names)
  { cols := maskFilter mask t.cols, rows := t.rows.map (maskFilter mask) }

/-! The cleaning if-chain (`main.py` lines 122-139)

The caller supplies `cleaning_options`, a list of operation names chosen
from the multiselect; the code tests membership in a fixed sequence of
`if "..." in cleaning_options:` statements, so the application order is
the textual order of the chain, not the selection order. -/

/-- The four-step cleaning chain exactly as the source sequences it. -/
def clean (t : Table) (cleaning_options : List String)
    (columns_to_remove : List String) : Table :=
  let t1 := if "Remove Duplicates" ∈ cleaning_options then dropDuplicates t else t
  let t2 := if "Fill Missing Values" ∈ cleaning_options then fillMissing t1 else t1
  let t3 := if "Standardize Column Names" ∈ cleaning_options then standardizeColumns t2 else t2
  if "Remove Columns" ∈ cleaning_options then removeColumns t3 columns_to_remove else t3

/-! Select Columns to Keep (`main.py` lines 146-152)

`df = df[columns_to_keep]` reindexes by label in the caller-given order;
a label that is not a column raises `KeyError`. -/

/-- Index of the first column with the given name. -/
def findColIdx? : List Col → String → Option ℕ
  | [], _ => none
  | c :: cs, n => if c.name = n then some 0 else (findColIdx? cs n).map (· + 1)

/-- Model of `df[columns_to_keep]` (`main.py` line 152): `none` models `KeyError`. -/
def project (t : Table) (names : List String) : Option Table :=
  match names.mapM (findColIdx? t.cols) with
  | none => none
  | some idxs =>
    some { cols := idxs.map fun j => t.cols.getD j cdef,
           rows := t.rows.map fun r => idxs.map fun j => r.getD j Value.missing }

/-! Data Visualization branch (`main.py` lines 156-188)

`numeric_cols = df.select_dtypes(include=["number"]).columns`; when
`len(numeric_cols) > 0` the chart options (among them "Correlation
Matrix", drawn from `df.corr()`) are offered, otherwise the code shows
the warning "No numeric columns found for visualization."  `df.corr()`
is the matrix of pairwise Pearson correlations over the numeric columns;
its exact-arithmetic content is carried here as the deviation sums
`(Sxy, Sxx, Syy)` per pair, from which `r = Sxy / √(Sxx·Syy)`. -/

/-- The numeric-dtype columns (`df.select_dtypes(include=["number"])`). -/
def numericCols (t : Table) : List Col :=
  t.cols.filter fun c => c.dtype = Dtype.numeric

/-- Positions of the numeric-dtype columns, starting at offset `k`. -/
def numericIdxs : List Col → ℕ → List ℕ
  | [], _ => []
  | c :: cs, k =>
    if c.dtype = Dtype.numeric then k :: numericIdxs cs (k + 1)
    else numericIdxs cs (k + 1)

/-- The rows where both column `i` and column `j` hold a number
(pandas `corr` uses pairwise-complete observations). -/
def pairObs (rows : List Row) (i j : ℕ) : List (ℚ × ℚ) :=
  rows.filterMap fun r =>
    match r.getD i Value.missing, r.getD j Value.missing with
    | Value.num a, Value.num b => some (a, b)
    | _, _ => none

/-- Arithmetic mean of a list of rationals. -/
def meanQ (l : List ℚ) : ℚ := l.sum / (l.length : ℚ)

/-- Pearson deviation sums of a pair of columns: `(Sxy, Sxx, Syy)`. -/
def devSums (rows : List Row) (i j : ℕ) : ℚ × ℚ × ℚ :=
  let obs := pairObs rows i j
  let mx := meanQ (obs.map Prod.fst)
  let my := meanQ (obs.map Prod.snd)
  ((obs.map fun p => (p.1 - mx) * (p.2 - my)).sum,
   (obs.map fun p => (p.1 - mx) ^ 2).sum,
   (obs.map fun p => (p.2 - my) ^ 2).sum)

/-- What the visualization section produces for the Correlation Matrix
request: either the heatmap data of `df.corr()` (labels plus pairwise
Pearson statistics) or the no-numeric-columns warning. -/
inductive VizOutcome where
  | corrMatrix (labels : List String) (entries : List (List (ℚ × ℚ × ℚ)))
  | noNumericWarning
  deriving DecidableEq, Repr

/-- The guarded branch (`len(numeric_cols) > 0`) of `main.py` lines 158-188 for the
Correlation Matrix chart type. -/
def corrViz (t : Table) : VizOutcome :=
  if ((numericCols t).map Col.name).length > 0 then
    VizOutcome.corrMatrix ((numericCols t).map Col.name)
      ((numericIdxs t.cols 0).map fun i =>
        (numericIdxs t.cols 0).map fun j => devSums t.rows i j)
  else VizOutcome.noNumericWarning

/-! Sidebar "Convert and Download" (`main.py` lines 57-68)

The handler tests `'df' in st.session_state`.  The keys the program ever
stores in the session state are `cleaned_data` and `show_balloons`
(lines 79-82, 142, 219-224) and the widget keys, each of which is one of
ten fixed prefixes followed by a file name (lines 118, 136, 150, 156,
162, 165, 166, 195, 198, 216). -/

/-- The widget-key prefixes appearing in `main.py`. -/
def sessionKeyPrefixes : List String :=
  ["cleaning_", "remove_", "columns_", "viz_", "chart_", "x_", "y_",
   "convert_", "convert_btn_", "download_"]

/-- A session-state key some execution of `main.py` can have assigned. -/
def AssignedKey (k : String) : Prop :=
  k = "cleaned_data" ∨ k = "show_balloons" ∨
    ∃ p ∈ sessionKeyPrefixes, ∃ f : String, k = p ++ f

/-- Result of the sidebar Convert and Download handler. -/
inductive SidebarOutcome where
  | download (fileName mime : String)
  | warnNoData
  deriving DecidableEq, Repr

/-- The sidebar Convert and Download handler (`main.py` lines 57-68). -/
def sidebarConvert (sessionKeys : List String)
    (conversion_type : String) : SidebarOutcome :=
  if "df" ∈ sessionKeys then
    if conversion_type = "CSV" then
      SidebarOutcome.download "converted_file.csv" "text/csv"
    else
      SidebarOutcome.download "converted_file.xlsx"
        "application/vnd.openxmlformats-officedocument.spreadsheetml.sheet"
  else SidebarOutcome.warnNoData

/-! File conversion naming (`main.py` lines 92, 198-207)

`file_ext = os.path.splitext(file.name)[-1].lower()` and
`file_name = file.name.replace(file_ext, ".csv")` (resp. `".xlsx"`),
with MIME types `"text/csv"` and the spreadsheet content type.
`os.path.splitext` takes the extension from the last dot, except that a
name whose every character before that dot is a dot has no extension;
Python's `str.replace` replaces every non-overlapping occurrence of the
(case-sensitive) pattern, scanning left to right, and with an empty
pattern inserts the replacement around every character. -/

/-- Model of `os.path.splitext(name)[-1]` for a bare file name (no directory
separators): the suffix from the last `'.'`, empty when there is no dot
or only leading dots precede it. -/
def splitextExt (s : String) : String :=
  let rev := s.data.reverse
  let revExt := rev.takeWhile (fun c => c ≠ '.')
  match rev.dropWhile (fun c => c ≠ '.') with
  | [] => ""
  | _ :: before =>
    if before.any (fun c => c ≠ '.') then String.mk ('.' :: revExt.reverse)
    else ""

/-- Python `str.lower()` (ASCII case suffices for extensions). -/
def strLower (s : String) : String := String.mk (s.data.map Char.toLower)

/-- One pass of Python `str.replace` with a non-empty pattern `old`,
fuelled by the input length (each step consumes at least one character). -/
def replAux (old new : List Char) : ℕ → List Char → List Char
  | _, [] => []
  | 0, cs => cs
  | fuel + 1, c :: cs =>
    if old.isPrefixOf (c :: cs) then
      new ++ replAux old new fuel (List.drop (old.length - 1) cs)
    else c :: replAux old new fuel cs

/-- Python `name.replace(old, new)`: every non-overlapping occurrence of
`old` is replaced by `new`; an empty `old` inserts `new` before every
character and at the end. -/
def pyReplace (s old new : String) : String :=
  if old.data = [] then
    String.mk (new.data ++ (s.data.map fun c => c :: new.data).flatten)
  else String.mk (replAux old.data new.data s.data.length s.data)

/-- The two target formats of the conversion radio button. -/
inductive Fmt where
  | csv : Fmt
  | excel : Fmt
  deriving DecidableEq, Repr

/-- The target format's canonical extension (`main.py` lines 202, 206). -/
def canonExt : Fmt → String
  | Fmt.csv => ".csv"
  | Fmt.excel => ".xlsx"

/-- The MIME tag attached to the download (`main.py` lines 203, 207). -/
def mimeFor : Fmt → String
  | Fmt.csv => "text/csv"
  | Fmt.excel => "application/vnd.openxmlformats-officedocument.spreadsheetml.sheet"

/-- Model of `file_name = file.name.replace(file_ext, <target ext>)`
(`main.py` lines 202/206), with `file_ext` from line 92. -/
def suggestedName (name : String) (fmt : Fmt) : String :=
  pyReplace name (strLower (splitextExt name)) (canonExt fmt)

/-! CSV / xlsx serialization (`main.py` lines 94, 96, 201, 205)

`df.to_csv(buffer, index=False)` writes a header row of column names and
one record per row, a missing cell as the empty field and a number by its
(faithful, exactly invertible) decimal representation; `pd.read_csv`
turns the empty field back into the missing marker, a field that parses
as a number into that number, and any other field into text.  The file
is modelled after field decoding — a header `List String` plus records
`List (List String)` — and the exactly invertible numeral pair
`ratRepr`/`ratParse?` stands in for pandas' float formatting, which
round-trips doubles exactly.  `to_excel`/`read_excel` exchange typed
cells (a spreadsheet cell is empty, a number, or a string; reading an
empty string back yields the missing marker). -/

/-- The character of a decimal digit (code 48 is `'0'`). -/
def digitChar (d : ℕ) : Char := Char.ofNat (48 + d)

/-- The digit of a decimal digit character, `none` otherwise. -/
def charDigit? (c : Char) : Option ℕ :=
  if 48 ≤ c.toNat ∧ c.toNat ≤ 57 then some (c.toNat - 48) else none

/-- Decimal numeral of a natural number (most significant digit first). -/
def natRepr (n : ℕ) : List Char :=
  if n = 0 then ['0'] else ((Nat.digits 10 n).map digitChar).reverse

/-- Parse a list of digit characters. -/
def parseDigits : List Char → Option (List ℕ)
  | [] => some []
  | c :: cs =>
    match charDigit? c, parseDigits cs with
    | some d, some ds => some (d :: ds)
    | _, _ => none

/-- Parse a non-empty decimal numeral. -/
def natParse? : List Char → Option ℕ
  | [] => none
  | c :: cs => (parseDigits (c :: cs)).map fun ds => Nat.ofDigits 10 ds.reverse

/-- The serialized characters of a rational: optional sign, then the
numerator and denominator numerals separated by `'/'`. -/
def ratChars (q : ℚ) : List Char :=
  (if q.num < 0 then ['-'] else []) ++ natRepr q.num.natAbs ++ '/' :: natRepr q.den

/-- Exact serialization of a rational number (the model of pandas'
faithful float formatting). -/
def ratRepr (q : ℚ) : String := String.mk (ratChars q)

/-- Split a character list at its first `'/'`. -/
def splitSlash : List Char → Option (List Char × List Char)
  | [] => none
  | c :: cs =>
    if c = '/' then some ([], cs)
    else (splitSlash cs).map fun p => (c :: p.1, p.2)

/-- Parse an unsigned serialized rational. -/
def parseFrac (cs : List Char) : Option ℚ :=
  match splitSlash cs with
  | none => none
  | some (a, b) =>
    match natParse? a, natParse? b with
    | some n, some d => if d ≠ 0 then some (mkRat n d) else none
    | _, _ => none

/-- Parse a serialized rational (the model of the numeric parse
`pd.read_csv` applies to each field). -/
def ratParse? (s : String) : Option ℚ :=
  match s.data with
  | [] => none
  | c :: cs => if c = '-' then (parseFrac cs).map (fun q => -q) else parseFrac (c :: cs)

/-- One CSV field of `df.to_csv` (`main.py` line 201). -/
def exportCell : Value → String
  | Value.missing => ""
  | Value.num q => ratRepr q
  | Value.text s => s

/-- One cell of `pd.read_csv` (`main.py` line 94): empty field ⇒ missing,
numeric field ⇒ number, other field ⇒ text. -/
def loadCell (s : String) : Value :=
  if s = "" then Value.missing
  else
    match ratParse? s with
    | some q => Value.num q
    | none => Value.text s

/-- Holds (`true`) unless the cell is text: a parsed column whose every cell
satisfies this gets a numeric dtype (all-missing columns included, as in
pandas, where they come back as float). -/
def numOk : Value → Bool
  | Value.text _ => false
  | _ => true

/-- Column metadata inferred on load: each header name with the dtype
determined by the parsed cells of its column position. -/
def loadCols (vrows : List Row) : List String → ℕ → List Col
  | [], _ => []
  | h :: hs, j =>
    ⟨h, if vrows.all (fun r => numOk (r.getD j Value.missing)) then Dtype.numeric
        else Dtype.object⟩ :: loadCols vrows hs (j + 1)

/-- Model of `pd.read_csv` on a decoded CSV file: header plus string records. -/
def loadTable (header : List String) (raw : List (List String)) : Table :=
  let vrows := raw.map (List.map loadCell)
  ⟨loadCols vrows header 0, vrows⟩

/-- Model of `df.to_csv(index=False)`: the header row and the string records. -/
def exportTable (t : Table) : List String × List (List String) :=
  (t.cols.map Col.name, t.rows.map (List.map exportCell))

/-- A spreadsheet cell: empty, a number, or a string. -/
abbrev XCell := Option (ℚ ⊕ String)

/-- One cell of `df.to_excel` (`main.py` line 205). -/
def exportXCell : Value → XCell
  | Value.missing => none
  | Value.num q => some (Sum.inl q)
  | Value.text s => some (Sum.inr s)

/-- One cell of `pd.read_excel` (`main.py` line 96): an empty cell (or an
empty-string cell) is missing, others keep their type. -/
def loadXCell : XCell → Value
  | none => Value.missing
  | some (Sum.inl q) => Value.num q
  | some (Sum.inr s) => if s = "" then Value.missing else Value.text s

/-- Model of `pd.read_excel` on a single-sheet workbook: header plus typed cells. -/
def loadXTable (header : List String) (raw : List (List XCell)) : Table :=
  let vrows := raw.map (List.map loadXCell)
  ⟨loadCols vrows header 0, vrows⟩

/-- Model of `df.to_excel(index=False)`: the header row and the typed records. -/
def exportXTable (t : Table) : List String × List (List XCell) :=
  (t.cols.map Col.name, t.rows.map (List.map exportXCell))

/-- A cell the pipeline can produce: text cells are non-empty and do not
parse as numbers — `pd.read_csv`/`pd.read_excel` would have turned such
fields into missing markers or numbers at ingestion, so no Table of this
pipeline holds them as text. -/
def WFValue : Value → Prop
  | Value.text s => s ≠ "" ∧ ratParse? s = none
  | _ => True

instance decWFValue : (v : Value) → Decidable (WFValue v)
  | Value.missing => isTrue trivial
  | Value.num _ => isTrue trivial
  | Value.text _ => inferInstanceAs (Decidable (_ ∧ _))

/-- A concrete two-column table (one numeric, one text column) used to
instantiate hypotheses of the projection theorem. -/
def tPair : Table :=
  ⟨[⟨"n", Dtype.numeric⟩, ⟨"s", Dtype.object⟩], [[Value.num 1, Value.text "a"]]⟩

/-! Lemmas about `dedupRows` -/

theorem mem_dedupRows (seen rs : List Row) :
    ∀ r ∈ dedupRows seen rs, r ∉ seen := by
  induction rs generalizing seen with
  | nil => simp [dedupRows]
  | cons r0 rs ih =>
    intro r hr
    simp only [dedupRows] at hr
    by_cases h0 : r0 ∈ seen
    · rw [if_pos h0] at hr
      exact ih seen r hr
    · rw [if_neg h0] at hr
      rcases List.mem_cons.mp hr with h | h
      · exact h ▸ h0
      · exact fun hs => ih (r0 :: seen) r h (List.mem_cons_of_mem _ hs)

theorem dedupRows_nodup (seen rs : List Row) : (dedupRows seen rs).Nodup := by
  induction rs generalizing seen with
  | nil => simp [dedupRows]
  | cons r0 rs ih =>
    simp only [dedupRows]
    by_cases h0 : r0 ∈ seen
    · rw [if_pos h0]
      exact ih seen
    · rw [if_neg h0]
      refine List.nodup_cons.mpr ⟨?_, ih (r0 :: seen)⟩
      exact fun hmem => mem_dedupRows _ _ r0 hmem (List.mem_cons_self _ _)

theorem dedupRows_eq_self (seen rs : List Row) (hnd : rs.Nodup)
    (h : ∀ r ∈ rs, r ∉ seen) : dedupRows seen rs = rs := by
  induction rs generalizing seen with
  | nil => rfl
  | cons r0 rs ih =>
    simp only [dedupRows, if_neg (h r0 (List.mem_cons_self _ _))]
    congr 1
    refine ih (r0 :: seen) (List.nodup_cons.mp hnd).2 ?_
    intro r hr hmem
    rcases List.mem_cons.mp hmem with he | hs
    · exact (List.nodup_cons.mp hnd).1 (he ▸ hr)
    · exact h r (List.mem_cons_of_mem _ hr) hs

theorem dedupRows_sublist (seen rs : List Row) : (dedupRows seen rs).Sublist rs := by
  induction rs generalizing seen with
  | nil => simp [dedupRows]
  | cons r0 rs ih =>
    simp only [dedupRows]
    by_cases h0 : r0 ∈ seen
    · rw [if_pos h0]
      exact (ih seen).cons r0
    · rw [if_neg h0]
      exact (ih (r0 :: seen)).cons₂ r0

/-- Claim C8: Remove Duplicates is idempotent: applying it twice yields the
same Table as applying it once; the kept rows are a subsequence of the
original rows (first occurrences kept, order preserved) and the columns
are untouched. -/
theorem dropDuplicates_idempotent (t : Table) :
    dropDuplicates (dropDuplicates t) = dropDuplicates t ∧
    (dropDuplicates t).rows.Sublist t.rows ∧
    (dropDuplicates t).cols = t.cols := by
  refine ⟨?_, dedupRows_sublist [] t.rows, rfl⟩
  have h : dedupRows [] (dedupRows [] t.rows) = dedupRows [] t.rows :=
    dedupRows_eq_self [] _ (dedupRows_nodup [] t.rows) (by simp)
  simp [dropDuplicates, h]

/-- Claim C3: the result of the cleaning chain depends only on which
operations are selected, not on the order the caller lists them (any
permutation of the selection gives an identical Table), and an empty
selection — every operation unselected — leaves the Table unchanged. -/
theorem clean_order_independent (t : Table) (o1 o2 rem : List String)
    (h : o1.Perm o2) :
    clean t o1 rem = clean t o2 rem ∧ clean t [] rem = t := by
  constructor
  · simp only [clean, h.mem_iff]
  · simp [clean]

/-- Witness for `clean_order_independent` at a concrete table and a
transposed pair of selections. -/
theorem clean_order_independent_witness :
    clean ⟨[⟨"a", Dtype.numeric⟩], [[Value.num 1], [Value.num 1]]⟩
        ["Fill Missing Values", "Remove Duplicates"] [] =
      clean ⟨[⟨"a", Dtype.numeric⟩], [[Value.num 1], [Value.num 1]]⟩
        ["Remove Duplicates", "Fill Missing Values"] [] ∧
    clean ⟨[⟨"a", Dtype.numeric⟩], [[Value.num 1], [Value.num 1]]⟩ [] [] =
      ⟨[⟨"a", Dtype.numeric⟩], [[Value.num 1], [Value.num 1]]⟩ :=
  clean_order_independent _ _ _ _ (List.Perm.swap _ _ _)

/-- Claim C5 counterexample: on the columns `["A B", "A_B"]` the
Standardize Column Names assignment succeeds and silently produces the
duplicate names `["a_b", "a_b"]` — it does not fail with
`DuplicateColumnName` as the claim states. -/
theorem standardize_collision_no_failure :
    (standardizeColumns ⟨[⟨"A B", Dtype.object⟩, ⟨"A_B", Dtype.numeric⟩], []⟩).cols.map
        Col.name = ["a_b", "a_b"] ∧
    ¬ ((standardizeColumns ⟨[⟨"A B", Dtype.object⟩, ⟨"A_B", Dtype.numeric⟩],
        []⟩).cols.map Col.name).Nodup := by
  constructor
  · rfl
  · decide

/-- Claim C5 amended: Standardize Column Names rewrites every column name to
lower-case with spaces replaced by underscores and never fails: when two
distinct original names collapse to the same normalized name it silently
produces a Table with duplicate column names.  Dtypes and row data are
untouched. -/
theorem standardizeColumns_spec (t : Table) :
    (standardizeColumns t).cols.map Col.name =
      t.cols.map (fun c => normalizeName c.name) ∧
    (standardizeColumns t).cols.map Col.dtype = t.cols.map Col.dtype ∧
    (standardizeColumns t).rows = t.rows := by
  simp [standardizeColumns, Function.comp]

/-! Lemmas about column lookup and projection -/

theorem findColIdx?_spec (cols : List Col) (n : String) :
    ∀ j, findColIdx? cols n = some j →
      j < cols.length ∧ (cols.getD j cdef).name = n := by
  induction cols with
  | nil => intro j h; simp [findColIdx?] at h
  | cons c cs ih =>
    intro j h
    simp only [findColIdx?] at h
    by_cases hc : c.name = n
    · rw [if_pos hc] at h
      cases h
      exact ⟨Nat.succ_pos _, hc⟩
    · rw [if_neg hc] at h
      rcases Option.map_eq_some'.mp h with ⟨j0, hj0, rfl⟩
      rcases ih j0 hj0 with ⟨hlt, hname⟩
      exact ⟨Nat.succ_lt_succ hlt, hname⟩

theorem findColIdx?_exists (cols : List Col) (n : String)
    (h : n ∈ cols.map Col.name) : ∃ j, findColIdx? cols n = some j := by
  induction cols with
  | nil => simp at h
  | cons c cs ih =>
    simp only [findColIdx?]
    by_cases hc : c.name = n
    · exact ⟨0, if_pos hc⟩
    · rw [List.map_cons, List.mem_cons] at h
      rcases h with h | h
      · exact absurd h.symm hc
      · rcases ih h with ⟨j0, hj0⟩
        exact ⟨j0 + 1, by rw [if_neg hc, hj0]; rfl⟩

/-- Claim C6: projecting onto the selection `[c2, c1]` (both column names of
`t`) succeeds and yields a Table whose columns are exactly the columns
named `c2` and `c1` in that caller-given order, each row holding the
unchanged cells of those two columns. -/
theorem project_order (t : Table) (c1 c2 : String)
    (h1 : c1 ∈ t.cols.map Col.name) (h2 : c2 ∈ t.cols.map Col.name) :
    ∃ i1 i2,
      (t.cols.getD i1 cdef).name = c1 ∧ (t.cols.getD i2 cdef).name = c2 ∧
      project t [c2, c1] =
        some { cols := [t.cols.getD i2 cdef, t.cols.getD i1 cdef],
               rows := t.rows.map fun r =>
                 [r.getD i2 Value.missing, r.getD i1 Value.missing] } := by
  rcases findColIdx?_exists t.cols c1 h1 with ⟨i1, hi1⟩
  rcases findColIdx?_exists t.cols c2 h2 with ⟨i2, hi2⟩
  refine ⟨i1, i2, (findColIdx?_spec t.cols c1 i1 hi1).2,
    (findColIdx?_spec t.cols c2 i2 hi2).2, ?_⟩
  simp [project, List.mapM, List.mapM.loop, hi1, hi2]

/-- Witness for `project_order` on a concrete two-column table. -/
theorem project_order_witness :
    ∃ i1 i2,
      (tPair.cols.getD i1 cdef).name = "n" ∧
      (tPair.cols.getD i2 cdef).name = "s" ∧
      project tPair ["s", "n"] =
        some { cols := [tPair.cols.getD i2 cdef, tPair.cols.getD i1 cdef],
               rows := tPair.rows.map fun r =>
                 [r.getD i2 Value.missing, r.getD i1 Value.missing] } :=
  project_order tPair "n" "s" (by decide) (by decide)

/-! Lemmas about the fill operation -/

theorem fillValue_none (v : Value) : fillValue none v = v := by
  cases v <;> rfl

theorem applyFill_length (ms : List (Option ℚ)) (r : Row) :
    (applyFill ms r).length = r.length := by
  induction r generalizing ms with
  | nil => cases ms <;> rfl
  | cons v vs ih =>
    cases ms with
    | nil => rfl
    | cons m ms' => simp [applyFill, ih]

theorem applyFill_getD (ms : List (Option ℚ)) (r : Row) (j : ℕ)
    (hj : j < r.length) :
    (applyFill ms r).getD j Value.missing =
      fillValue (ms.getD j none) (r.getD j Value.missing) := by
  induction r generalizing ms j with
  | nil => simp at hj
  | cons v vs ih =>
    cases ms with
    | nil =>
      simp only [applyFill, List.getD_nil]
      exact (fillValue_none _).symm
    | cons m ms' =>
      cases j with
      | zero => rfl
      | succ j' =>
        simp only [applyFill, List.getD_cons_succ]
        exact ih ms' j' (Nat.lt_of_succ_lt_succ hj)

theorem fillTransforms_getD (rows : List Row) (cols : List Col) (k j : ℕ)
    (hj : j < cols.length) :
    (fillTransforms rows cols k).getD j none =
      if (cols.getD j cdef).dtype = Dtype.numeric then colMean rows (k + j)
      else none := by
  induction cols generalizing k j with
  | nil => simp at hj
  | cons c cs ih =>
    cases j with
    | zero => rfl
    | succ j' =>
      simp only [fillTransforms, List.getD_cons_succ]
      rw [ih (k + 1) j' (Nat.lt_of_succ_lt_succ hj)]
      have : k + 1 + j' = k + (j' + 1) := by omega
      rw [this]

/-- Claim C4: Fill Missing Values leaves every non-numeric (text) column
completely unchanged, missing cells included; in every numeric column
each missing cell becomes the arithmetic mean of that column's
non-missing values taken from the *original* rows `t.rows` (one pass
over pre-fill values), present cells are untouched, and when the column
has no present value at all the cell stays missing.  Column metadata is
unchanged. -/
theorem fillMissing_spec (t : Table) (j : ℕ) (hj : j < t.cols.length)
    (hrect : ∀ r ∈ t.rows, r.length = t.cols.length) :
    ((t.cols.getD j cdef).dtype ≠ Dtype.numeric →
      (fillMissing t).rows.map (fun r => r.getD j Value.missing) =
        t.rows.map (fun r => r.getD j Value.missing)) ∧
    ((t.cols.getD j cdef).dtype = Dtype.numeric →
      (fillMissing t).rows.map (fun r => r.getD j Value.missing) =
        t.rows.map (fun r =>
          fillValue (colMean t.rows j) (r.getD j Value.missing))) ∧
    (fillMissing t).cols = t.cols := by
  have key : ∀ r ∈ t.rows,
      (applyFill (fillTransforms t.rows t.cols 0) r).getD j Value.missing =
        fillValue
          (if (t.cols.getD j cdef).dtype = Dtype.numeric then colMean t.rows j
           else none)
          (r.getD j Value.missing) := by
    intro r hr
    rw [applyFill_getD _ _ _ (by rw [hrect r hr]; exact hj),
      fillTransforms_getD t.rows t.cols 0 j hj, Nat.zero_add]
  refine ⟨?_, ?_, rfl⟩
  · intro hdt
    simp only [fillMissing, List.map_map]
    refine List.map_congr_left fun r hr => ?_
    rw [Function.comp_apply, key r hr, if_neg hdt, fillValue_none]
  · intro hdt
    simp only [fillMissing, List.map_map]
    refine List.map_congr_left fun r hr => ?_
    rw [Function.comp_apply, key r hr, if_pos hdt]

/-- A concrete one-numeric-column table with a missing cell, to
instantiate the fill theorem. -/
def tFill : Table :=
  ⟨[⟨"n", Dtype.numeric⟩], [[Value.num 1], [Value.missing], [Value.num 2]]⟩

/-- Witness for `fillMissing_spec` on a concrete table. -/
theorem fillMissing_spec_witness :
    ((tFill.cols.getD 0 cdef).dtype ≠ Dtype.numeric →
      (fillMissing tFill).rows.map (fun r => r.getD 0 Value.missing) =
        tFill.rows.map (fun r => r.getD 0 Value.missing)) ∧
    ((tFill.cols.getD 0 cdef).dtype = Dtype.numeric →
      (fillMissing tFill).rows.map (fun r => r.getD 0 Value.missing) =
        tFill.rows.map (fun r =>
          fillValue (colMean tFill.rows 0) (r.getD 0 Value.missing))) ∧
    (fillMissing tFill).cols = tFill.cols :=
  fillMissing_spec tFill 0 (by decide) (by decide)

/-- Claim C10: on a numeric column all of whose cells are missing, Fill
Missing Values is a no-op: every cell of that column is still missing
afterwards (no default such as zero is substituted), and the row count
is unchanged. -/
theorem fillMissing_allMissing (t : Table) (j : ℕ)
    (hdt : (t.cols.getD j cdef).dtype = Dtype.numeric)
    (hall : ∀ r ∈ t.rows, r.getD j Value.missing = Value.missing) :
    (∀ r ∈ (fillMissing t).rows, r.getD j Value.missing = Value.missing) ∧
    (fillMissing t).rows.length = t.rows.length := by
  have hmean : colMean t.rows j = none := by
    have hpres : colPresent t.rows j = [] := by
      refine List.filterMap_eq_nil_iff.mpr fun r hr => ?_
      rw [hall r hr]
    simp [colMean, hpres]
  constructor
  · intro r' hr'
    simp only [fillMissing, List.mem_map] at hr'
    rcases hr' with ⟨r0, hr0, rfl⟩
    by_cases hlen : j < r0.length
    · rw [applyFill_getD _ _ _ hlen]
      have hjc : j < t.cols.length := by
        by_contra hle
        rw [List.getD_eq_default _ _ (Nat.le_of_not_lt hle)] at hdt
        exact absurd hdt (by decide)
      rw [fillTransforms_getD t.rows t.cols 0 j hjc, Nat.zero_add, if_pos hdt,
        hmean, hall r0 hr0]
      rfl
    · rw [List.getD_eq_default]
      rw [applyFill_length]
      exact Nat.le_of_not_lt hlen
  · simp [fillMissing]

/-- A one-numeric-column table whose cells are all missing. -/
def tAllMissing : Table :=
  ⟨[⟨"n", Dtype.numeric⟩], [[Value.missing], [Value.missing]]⟩

/-- Witness for `fillMissing_allMissing` on a concrete all-missing
numeric column. -/
theorem fillMissing_allMissing_witness :
    (∀ r ∈ (fillMissing tAllMissing).rows,
      r.getD 0 Value.missing = Value.missing) ∧
    (fillMissing tAllMissing).rows.length = tAllMissing.rows.length :=
  fillMissing_allMissing tAllMissing 0 (by decide) (by decide)

/-! The correlation branch (C2) -/

/-- A table with exactly one numeric column. -/
def tOneNum : Table :=
  ⟨[⟨"n", Dtype.numeric⟩], [[Value.num 1], [Value.num 2]]⟩

/-- Claim C2 counterexample: on a Table with exactly one numeric column the
code does *not* return the no-numeric-columns signal — the guard is
`len(numeric_cols) > 0`, so a 1×1 correlation matrix is produced. -/
theorem corr_one_numeric_counterexample :
    (numericCols tOneNum).length = 1 ∧
    corrViz tOneNum ≠ VizOutcome.noNumericWarning := by
  constructor
  · rfl
  · decide

/-- Claim C2 amended: the visualization branch returns the
no-numeric-columns warning exactly when the Table has *zero* numeric
columns; whenever at least one numeric column exists (in particular with
exactly one) it instead produces the correlation-matrix data (the only
other outcome). -/
theorem corrViz_warning_iff (t : Table) :
    corrViz t = VizOutcome.noNumericWarning ↔ numericCols t = [] := by
  constructor
  · intro h
    by_contra hne
    have hpos : 0 < ((numericCols t).map Col.name).length := by
      simp [List.length_pos, hne]
    rw [corrViz, if_pos hpos] at h
    exact VizOutcome.noConfusion h
  · intro h
    rw [corrViz, if_neg (by simp [h])]

/-! The sidebar dead branch (C9) -/

/-- Claim C9: in every reachable session state (one whose keys were all
assigned by some execution of the program) the key `'df'` is absent, so
the sidebar Convert and Download handler always takes the
"No data loaded to convert." branch. -/
theorem sidebarConvert_always_warns (keys : List String)
    (conversion_type : String) (hk : ∀ k ∈ keys, AssignedKey k) :
    sidebarConvert keys conversion_type = SidebarOutcome.warnNoData := by
  have hdf : "df" ∉ keys := by
    intro hmem
    rcases hk "df" hmem with h | h | ⟨p, hp, f, hk'⟩
    · exact absurd h (by decide)
    · exact absurd h (by decide)
    · have hall : ∀ q ∈ sessionKeyPrefixes, '_' ∈ q.data := by decide
      have hu : '_' ∈ p.data := hall p hp
      have hin : '_' ∈ ("df" : String).data := by
        rw [hk', String.data_append]
        exact List.mem_append_left _ hu
      exact absurd hin (by decide)
  rw [sidebarConvert, if_neg hdf]

/-- Witness for `sidebarConvert_always_warns` at a concrete session
state holding every kind of key the program assigns. -/
theorem sidebarConvert_always_warns_witness :
    sidebarConvert ["cleaned_data", "show_balloons", "cleaning_data.csv"]
      "CSV" = SidebarOutcome.warnNoData :=
  sidebarConvert_always_warns _ _ (by
    intro k hk
    rcases List.mem_cons.mp hk with h1 | hk1
    · exact Or.inl h1
    rcases List.mem_cons.mp hk1 with h2 | hk2
    · exact Or.inr (Or.inl h2)
    rcases List.mem_cons.mp hk2 with h3 | hk3
    · exact Or.inr (Or.inr ⟨"cleaning_", by decide, "data.csv", h3.trans (by decide)⟩)
    · exact absurd hk3 (List.not_mem_nil k))

/-! Conversion naming (C7) -/

/-- Claim C7 counterexample: for the upload name `"DATA.CSV"` converted to
xlsx, the code computes `file_ext = ".csv"` (lower-cased) but
`"DATA.CSV".replace(".csv", ".xlsx")` finds no occurrence of the
lower-cased extension, so the suggested name keeps the `.CSV` extension
instead of replacing it with the target's canonical `.xlsx`. -/
theorem convert_name_counterexample :
    suggestedName "DATA.CSV" Fmt.excel = "DATA.CSV" ∧
    suggestedName "DATA.CSV" Fmt.excel ≠ "DATA.xlsx" ∧
    suggestedName "a.csv.csv" Fmt.excel = "a.xlsx.xlsx" := by
  refine ⟨by decide, by decide, by decide⟩

theorem isPrefixOf_self (l : List Char) : l.isPrefixOf l = true := by
  induction l with
  | nil => rfl
  | cons c cs ih => simp [List.isPrefixOf, ih]

theorem replAux_no_early (old new : List Char) (hold : old ≠ []) :
    ∀ (stem : List Char) (fuel : ℕ), (stem ++ old).length ≤ fuel →
      (∀ i < stem.length, old.isPrefixOf ((stem ++ old).drop i) = false) →
      replAux old new fuel (stem ++ old) = stem ++ new := by
  intro stem
  induction stem with
  | nil =>
    intro fuel hfuel _
    cases fuel with
    | zero =>
      simp only [List.nil_append, List.length] at hfuel
      exact absurd (List.length_eq_zero.mp (Nat.le_zero.mp hfuel)) hold
    | succ f =>
      rcases List.exists_cons_of_ne_nil hold with ⟨oc, ocs, rfl⟩
      simp only [List.nil_append, replAux]
      rw [if_pos (isPrefixOf_self _)]
      have hdrop : List.drop ((oc :: ocs).length - 1) ocs = [] :=
        List.drop_eq_nil_of_le (by simp)
      rw [hdrop]
      cases f <;> simp [replAux]
  | cons c stem' ih =>
    intro fuel hfuel hno
    cases fuel with
    | zero => simp at hfuel
    | succ f =>
      have h0 : old.isPrefixOf (c :: (stem' ++ old)) = false := by
        have := hno 0 (Nat.succ_pos _)
        simpa using this
      simp only [List.cons_append, replAux, List.append_eq]
      rw [h0]
      simp only [Bool.false_eq_true, if_false]
      congr 1
      refine ih f ?_ ?_
      · simpa using Nat.le_of_succ_le_succ (by simpa using hfuel)
      · intro i hi
        have := hno (i + 1) (Nat.succ_lt_succ hi)
        simpa using this

/-- Claim C7 amended: the MIME tags are `text/csv` and the standard
spreadsheet content type as claimed, but the suggested file name is the
original with every occurrence of the *lower-cased* original extension
substring replaced; it equals "extension replaced by the target's
canonical extension" exactly when the name ends in that lower-cased
extension and the extension substring does not occur earlier in the
name. -/
theorem suggestedName_spec (stem origExt : String) (fmt : Fmt)
    (hne : origExt.data ≠ [])
    (hext : strLower (splitextExt (stem ++ origExt)) = origExt)
    (hno : ∀ i < stem.data.length,
      origExt.data.isPrefixOf ((stem.data ++ origExt.data).drop i) = false) :
    suggestedName (stem ++ origExt) fmt = stem ++ canonExt fmt ∧
    mimeFor Fmt.csv = "text/csv" ∧
    mimeFor Fmt.excel =
      "application/vnd.openxmlformats-officedocument.spreadsheetml.sheet" := by
  refine ⟨?_, rfl, rfl⟩
  rw [suggestedName, hext, pyReplace, if_neg hne]
  have hdata : (stem ++ origExt).data = stem.data ++ origExt.data :=
    String.data_append stem origExt
  rw [hdata,
    replAux_no_early origExt.data (canonExt fmt).data hne stem.data _
      (le_refl _) hno, ← String.data_append]

/-- Witness for `suggestedName_spec`: `"data.csv"` converted to xlsx is
suggested as `"data.xlsx"`. -/
theorem suggestedName_spec_witness :
    suggestedName ("data" ++ ".csv") Fmt.excel = "data" ++ canonExt Fmt.excel ∧
    mimeFor Fmt.csv = "text/csv" ∧
    mimeFor Fmt.excel =
      "application/vnd.openxmlformats-officedocument.spreadsheetml.sheet" :=
  suggestedName_spec "data" ".csv" Fmt.excel (by decide) (by decide) (by decide)

/-! Round-trip lemmas (C1) -/

theorem charDigit?_digitChar (d : ℕ) (hd : d < 10) :
    charDigit? (digitChar d) = some d := by
  interval_cases d <;> rfl

theorem digitChar_ne_slash (d : ℕ) (hd : d < 10) : digitChar d ≠ '/' := by
  interval_cases d <;> decide

theorem digitChar_ne_dash (d : ℕ) (hd : d < 10) : digitChar d ≠ '-' := by
  interval_cases d <;> decide

theorem mem_natRepr (c : Char) (n : ℕ) (hc : c ∈ natRepr n) :
    ∃ d, d < 10 ∧ c = digitChar d := by
  unfold natRepr at hc
  by_cases h : n = 0
  · rw [if_pos h] at hc
    simp only [List.mem_singleton] at hc
    exact ⟨0, by norm_num, hc⟩
  · rw [if_neg h, List.mem_reverse] at hc
    rcases List.mem_map.mp hc with ⟨d, hd, rfl⟩
    exact ⟨d, Nat.digits_lt_base (by norm_num) hd, rfl⟩

theorem natRepr_ne_nil (n : ℕ) : natRepr n ≠ [] := by
  unfold natRepr
  by_cases h : n = 0
  · simp [h]
  · rw [if_neg h]
    simp only [ne_eq, List.reverse_eq_nil_iff, List.map_eq_nil_iff]
    exact Nat.digits_ne_nil_iff_ne_zero.mpr h

theorem parseDigits_map (l : List ℕ) (hl : ∀ d ∈ l, d < 10) :
    parseDigits (l.map digitChar) = some l := by
  induction l with
  | nil => rfl
  | cons d ds ih =>
    simp only [List.map_cons, parseDigits]
    rw [charDigit?_digitChar d (hl d (List.mem_cons_self _ _)),
      ih fun x hx => hl x (List.mem_cons_of_mem _ hx)]

theorem natParse?_eq (cs : List Char) (h : cs ≠ []) :
    natParse? cs = (parseDigits cs).map fun ds => Nat.ofDigits 10 ds.reverse := by
  cases cs with
  | nil => exact absurd rfl h
  | cons c cs' => rfl

theorem natParse?_natRepr (n : ℕ) : natParse? (natRepr n) = some n := by
  rw [natParse?_eq _ (natRepr_ne_nil n)]
  by_cases h : n = 0
  · subst h
    rfl
  · unfold natRepr
    rw [if_neg h, ← List.map_reverse,
      parseDigits_map _ (fun d hd =>
        Nat.digits_lt_base (by norm_num) (List.mem_reverse.mp hd))]
    simp [Nat.ofDigits_digits]

theorem not_slash_natRepr (n : ℕ) : '/' ∉ natRepr n := by
  intro hmem
  rcases mem_natRepr _ _ hmem with ⟨d, hd, he⟩
  exact digitChar_ne_slash d hd he.symm

theorem splitSlash_append (a b : List Char) (ha : '/' ∉ a) :
    splitSlash (a ++ '/' :: b) = some (a, b) := by
  induction a with
  | nil => simp [splitSlash]
  | cons c cs ih =>
    have hch : ¬(c = '/') := fun hc => ha (by rw [hc]; exact List.mem_cons_self _ _)
    simp only [List.cons_append, splitSlash, List.append_eq]
    rw [if_neg hch, ih fun hm => ha (List.mem_cons_of_mem _ hm)]
    rfl

theorem parseFrac_repr (a b : ℕ) (hb : b ≠ 0) :
    parseFrac (natRepr a ++ '/' :: natRepr b) = some (mkRat a b) := by
  unfold parseFrac
  rw [splitSlash_append _ _ (not_slash_natRepr a)]
  simp only [natParse?_natRepr]
  simp [hb]

theorem ratParse?_cons (c : Char) (cs : List Char) :
    ratParse? (String.mk (c :: cs)) =
      if c = '-' then (parseFrac cs).map (fun q => -q)
      else parseFrac (c :: cs) := rfl

theorem ratParse?_ratRepr (q : ℚ) : ratParse? (ratRepr q) = some q := by
  unfold ratRepr ratChars
  by_cases hq : q.num < 0
  · rw [if_pos hq]
    show ratParse?
      (String.mk ('-' :: (natRepr q.num.natAbs ++ '/' :: natRepr q.den))) = _
    rw [ratParse?_cons, if_pos rfl, parseFrac_repr _ _ q.den_nz]
    have habs : (q.num.natAbs : ℤ) = -q.num :=
      Int.ofNat_natAbs_of_nonpos (le_of_lt hq)
    have hmk : mkRat (q.num.natAbs : ℤ) q.den = -q := by
      rw [habs, ← Rat.neg_num q, ← Rat.neg_den q, Rat.mkRat_self]
    rw [hmk]
    simp
  · rw [if_neg hq]
    rcases List.exists_cons_of_ne_nil (natRepr_ne_nil q.num.natAbs) with ⟨c, cs, hc⟩
    have hcd : ¬(c = '-') := by
      rcases mem_natRepr c q.num.natAbs (hc ▸ List.mem_cons_self c cs) with
        ⟨d, hd, rfl⟩
      exact digitChar_ne_dash d hd
    show ratParse?
      (String.mk (natRepr q.num.natAbs ++ '/' :: natRepr q.den)) = _
    rw [hc, List.cons_append, ratParse?_cons, if_neg hcd, ← List.cons_append,
      ← hc, parseFrac_repr _ _ q.den_nz]
    have habs : (q.num.natAbs : ℤ) = q.num := Int.natAbs_of_nonneg (not_lt.mp hq)
    rw [habs, Rat.mkRat_self]

theorem ratChars_ne_nil (q : ℚ) : ratChars q ≠ [] := by
  unfold ratChars
  intro h
  rcases List.append_eq_nil.mp h with ⟨-, h2⟩
  exact List.cons_ne_nil _ _ h2

theorem loadCell_exportCell (v : Value) (h : WFValue v) :
    loadCell (exportCell v) = v := by
  cases v with
  | missing => rfl
  | num q =>
    show loadCell (ratRepr q) = Value.num q
    have hne : ¬(ratRepr q = "") := fun he =>
      ratChars_ne_nil q (congrArg String.data he)
    unfold loadCell
    rw [if_neg hne, ratParse?_ratRepr]
  | text s =>
    rcases h with ⟨h1, h2⟩
    show loadCell s = Value.text s
    unfold loadCell
    rw [if_neg h1, h2]

theorem loadXCell_exportXCell (v : Value) (h : WFValue v) :
    loadXCell (exportXCell v) = v := by
  cases v with
  | missing => rfl
  | num q => rfl
  | text s =>
    show (if s = "" then Value.missing else Value.text s) = Value.text s
    rw [if_neg h.1]

theorem loadCols_names (vrows : List Row) :
    ∀ (hs : List String) (j : ℕ), (loadCols vrows hs j).map Col.name = hs := by
  intro hs
  induction hs with
  | nil => intro j; rfl
  | cons h hs' ih =>
    intro j
    simp only [loadCols, List.map_cons, ih (j + 1)]

theorem row_map_roundtrip {α : Type} (f : Value → α) (g : α → Value) (r : Row)
    (h : ∀ v ∈ r, g (f v) = v) : (r.map f).map g = r := by
  rw [List.map_map]
  have h2 : r.map (g ∘ f) = r.map id := List.map_congr_left fun v hv => h v hv
  rw [h2, List.map_id]

/-- Claim C1: for every Table whose cells the pipeline can have produced
(text cells non-empty and non-numeric — ingestion would have parsed such
fields into numbers or missing markers) and whose column names are the
unique, non-empty labels the data model guarantees, exporting to CSV and
loading the result back yields the same column names and exactly the
same cells (missing ⇔ missing, numbers exactly equal — so within any
tolerance — and text identical); the same holds for the xlsx format. -/
theorem csv_xlsx_round_trip (t : Table)
    (hwf : ∀ r ∈ t.rows, ∀ v ∈ r, WFValue v)
    (hnodup : (t.cols.map Col.name).Nodup)
    (hnames : ∀ n ∈ t.cols.map Col.name, n ≠ "") :
    ((loadTable (exportTable t).1 (exportTable t).2).cols.map Col.name =
        t.cols.map Col.name ∧
      (loadTable (exportTable t).1 (exportTable t).2).rows = t.rows) ∧
    ((loadXTable (exportXTable t).1 (exportXTable t).2).cols.map Col.name =
        t.cols.map Col.name ∧
      (loadXTable (exportXTable t).1 (exportXTable t).2).rows = t.rows) := by
  refine ⟨⟨loadCols_names _ _ 0, ?_⟩, ⟨loadCols_names _ _ 0, ?_⟩⟩
  · show (t.rows.map (List.map exportCell)).map (List.map loadCell) = t.rows
    rw [List.map_map]
    have h2 : t.rows.map (List.map loadCell ∘ List.map exportCell) =
        t.rows.map id := by
      refine List.map_congr_left fun r hr => ?_
      exact row_map_roundtrip exportCell loadCell r fun v hv =>
        loadCell_exportCell v (hwf r hr v hv)
    rw [h2, List.map_id]
  · show (t.rows.map (List.map exportXCell)).map (List.map loadXCell) = t.rows
    rw [List.map_map]
    have h2 : t.rows.map (List.map loadXCell ∘ List.map exportXCell) =
        t.rows.map id := by
      refine List.map_congr_left fun r hr => ?_
      exact row_map_roundtrip exportXCell loadXCell r fun v hv =>
        loadXCell_exportXCell v (hwf r hr v hv)
    rw [h2, List.map_id]

/-- A concrete pipeline-shaped table: a numeric column with a missing
cell and a fractional mean-like value, and a text column. -/
def tRT : Table :=
  ⟨[⟨"n", Dtype.numeric⟩, ⟨"s", Dtype.object⟩],
   [[Value.num (3 / 2 : ℚ), Value.text "ab"],
    [Value.missing, Value.text "c"],
    [Value.num (-2 : ℚ), Value.missing]]⟩

/-- Witness for `csv_xlsx_round_trip` on a concrete table with missing,
fractional, negative and text cells. -/
theorem csv_xlsx_round_trip_witness :
    ((loadTable (exportTable tRT).1 (exportTable tRT).2).cols.map Col.name =
        tRT.cols.map Col.name ∧
      (loadTable (exportTable tRT).1 (exportTable tRT).2).rows = tRT.rows) ∧
    ((loadXTable (exportXTable tRT).1 (exportXTable tRT).2).cols.map Col.name =
        tRT.cols.map Col.name ∧
      (loadXTable (exportXTable tRT).1 (exportXTable tRT).2).rows = tRT.rows) :=
  csv_xlsx_round_trip tRT (by decide) (by decide) (by decide)

end DataSweeper
